import Mathlib

/-!
# Dense linear-algebra wrappers: `src/NativeWrappers/MKL/lapack.cpp`

A shallow embedding of the C wrappers around the LAPACK / CBLAS routines.

* A buffer (`float a[]`, `int ipiv[]`, ...) is a `List` of its elements; offset `k` of the
  C array is position `k` of the list.  An access outside the list is outside the C
  semantics: the embedding gives it no effect (`List.set` beyond the end, `copyAt` from a
  missing source), and the theorems are stated for buffers that are large enough.
* The library routines are not part of the repository.  They are the fields of a
  structure `Lapack α`, one uninterpreted function per routine, with the argument
  directions of the LAPACK interface: an `(input)` argument is passed, an
  `(input/output)` argument is passed and returned, an `(output)` argument is returned,
  `INFO` is an output.  Workspace buffers are passed and returned.
* Dimensions are natural numbers (a buffer of `n*n` elements is allocated from them);
  pivot entries are C `int`s, modelled as integers with 32-bit wrap-around on `+= 1` and
  `-= 1`.
* The four precisions `s_`, `d_`, `c_`, `z_` of a wrapper have the same text up to the
  element type and the routine prefix; the embedding is generic in the element type `α`
  and keeps the `s_` name.  The complex variant is embedded separately where its text
  differs (`c_cholesky_factor`, whose zero is the pair `{0, 0}`; `c_svd_factor`, which
  allocates scratch that the real variant does not).
* Every wrapper returns the final contents of all the buffers of its caller, the status,
  and the list of events of the call (library calls with their dimension arguments,
  scratch acquisitions `new T[k]`, scratch releases `delete[]`), in program order.
-/

namespace MklLapack

/-! ## Machine integers -/

/-- The value a C `int` holds after the mathematical result `x` is stored in it. -/
def wrap32 (x : Int) : Int := (x + 2147483648) % 4294967296 - 2147483648

/-- The integer `x` is a value of the C type `int`. -/
def IsInt32 (x : Int) : Prop := -2147483648 ≤ x ∧ x < 2147483648

instance (x : Int) : Decidable (IsInt32 x) := by
  unfold IsInt32; infer_instance

/-! ## Events of a call -/

/-- The library routines the wrappers call. -/
inductive Routine
  | getrf | getri | getrs | potrf | potrs | geqrf | orgqr | ormqr | trsm | gesvd
  deriving DecidableEq

/-- The scratch buffers the wrappers allocate, by the name of the C local. -/
inductive Scratch
  | clone | ipiv | clone_r | tau | clone_b | rwork | s_local
  deriving DecidableEq

/-- One observable step of a wrapper. -/
inductive Event
  | call (r : Routine) (dims : List Nat)
  | acquire (s : Scratch) (len : Nat)
  | release (s : Scratch)
  deriving DecidableEq

/-! ## The external library -/

/-- Result of `?getrf_`. -/
structure GetrfOut (α : Type) where
  a : List α
  ipiv : List Int
  info : Int

/-- Result of `?getri_`. -/
structure GetriOut (α : Type) where
  a : List α
  work : List α
  info : Int

/-- Result of `?getrs_` and of `?potrs_`. -/
structure SolveOut (α : Type) where
  b : List α
  info : Int

/-- Result of `?potrf_`. -/
structure PotrfOut (α : Type) where
  a : List α
  info : Int

/-- Result of `?geqrf_`. -/
structure GeqrfOut (α : Type) where
  a : List α
  tau : List α
  work : List α
  info : Int

/-- Result of `?orgqr_` / `?ungqr_`. -/
structure OrgqrOut (α : Type) where
  a : List α
  work : List α
  info : Int

/-- Result of `?ormqr_` / `?unmqr_`. -/
structure OrmqrOut (α : Type) where
  c : List α
  work : List α
  info : Int

/-- The enumeration arguments of `cblas_?trsm` used by the wrappers. -/
inductive Cblas
  | ColMajor | Left | Upper | NoTrans | NonUnit
  deriving DecidableEq

/-- The LAPACK / CBLAS routines called by the wrappers, as functions of their input
arguments, in the argument order of the Fortran interface. -/
structure Lapack (α : Type) where
  /-- Routine `getrf_(&m, &n, a, &lda, ipiv, &info)` -/
  getrf : (m n : Nat) → (a : List α) → (lda : Nat) → GetrfOut α
  /-- Routine `getri_(&n, a, &lda, ipiv, work, &lwork, &info)` -/
  getri : (n : Nat) → (a : List α) → (lda : Nat) → (ipiv : List Int) → (work : List α) →
    (lwork : Int) → GetriOut α
  /-- Routine `getrs_(&trans, &n, &nrhs, a, &lda, ipiv, b, &ldb, &info)` -/
  getrs : (trans : Char) → (n nrhs : Nat) → (a : List α) → (lda : Nat) → (ipiv : List Int) →
    (b : List α) → (ldb : Nat) → SolveOut α
  /-- Routine `potrf_(&uplo, &n, a, &lda, &info)` -/
  potrf : (uplo : Char) → (n : Nat) → (a : List α) → (lda : Nat) → PotrfOut α
  /-- Routine `potrs_(&uplo, &n, &nrhs, a, &lda, b, &ldb, &info)` -/
  potrs : (uplo : Char) → (n nrhs : Nat) → (a : List α) → (lda : Nat) → (b : List α) →
    (ldb : Nat) → SolveOut α
  /-- Routine `geqrf_(&m, &n, a, &lda, tau, work, &lwork, &info)` -/
  geqrf : (m n : Nat) → (a : List α) → (lda : Nat) → (work : List α) → (lwork : Int) →
    GeqrfOut α
  /-- Routine `orgqr_(&m, &n, &k, a, &lda, tau, work, &lwork, &info)` -/
  orgqr : (m n k : Nat) → (a : List α) → (lda : Nat) → (tau : List α) → (work : List α) →
    (lwork : Int) → OrgqrOut α
  /-- Routine `ormqr_(&side, &trans, &m, &n, &k, a, &lda, tau, c, &ldc, work, &lwork, &info)` -/
  ormqr : (side trans : Char) → (m n k : Nat) → (a : List α) → (lda : Nat) → (tau : List α) →
    (c : List α) → (ldc : Nat) → (work : List α) → (lwork : Int) → OrmqrOut α
  /-- Routine `cblas_trsm(order, side, uplo, transa, diag, m, n, alpha, a, lda, b, ldb)` -/
  trsm : (order side uplo transa diag : Cblas) → (m n : Nat) → (alpha : α) → (a : List α) →
    (lda : Nat) → (b : List α) → (ldb : Nat) → List α

/-! ## Buffer accesses and loops -/

/-- The statement `buf[i] = f(buf[i])` (`buf[i] += 1`, `buf[i] -= 1`). -/
def updAt {β : Type} (buf : List β) (i : Nat) (f : β → β) : List β :=
  match buf[i]? with
  | some v => buf.set i (f v)
  | none => buf

/-- The statement `dst[d] = src[s]`. -/
def copyAt {β : Type} (dst : List β) (d : Nat) (src : List β) (s : Nat) : List β :=
  match src[s]? with
  | some v => dst.set d v
  | none => dst

/-- Content of a buffer position after a store of `new` is attempted there: the store
needs the position to exist and the stored value to be available. -/
def overwrite {β : Type} (old new : Option β) : Option β :=
  match new with
  | some w => old.map (fun _ => w)
  | none => old

/-- The transformer `S` stores `v k` at every position `k` with `W k` and leaves every
other position as it is. -/
def Paints {β : Type} (v : Nat → Option β) (W : Nat → Prop) (S : List β → List β) : Prop :=
  ∀ a k, (W k → (S a)[k]? = overwrite a[k]? (v k)) ∧ (¬ W k → (S a)[k]? = a[k]?)

/-- The loop `for (i = 0; i < n; ++i) ipiv[i] += 1;`. -/
def pivotsToOneBased (n : Nat) (ipiv : List Int) : List Int :=
  (List.range n).foldl (fun p i => updAt p i (fun v => wrap32 (v + 1))) ipiv

/-- The loop `for (i = 0; i < n; ++i) ipiv[i] -= 1;`. -/
def pivotsToZeroBased (n : Nat) (ipiv : List Int) : List Int :=
  (List.range n).foldl (fun p i => updAt p i (fun v => wrap32 (v - 1))) ipiv

/-! ## LU wrappers -/

/-- Caller-visible state after `lu_factor`. -/
structure LuFactorState (α : Type) where
  a : List α
  ipiv : List Int
  info : Int
  events : List Event

/-- Wrapper `s_lu_factor(int m, float a[], int ipiv[])`, lines 27-35.  The buffer `ipiv` is
an output of `getrf_`: its contents at entry play no part, its contents after the call are
the pivots the library returns. -/
def s_lu_factor {α : Type} (L : Lapack α) (m : Nat) (a : List α) : LuFactorState α :=
  let f := L.getrf m m a m
  { a := f.a
    ipiv := pivotsToZeroBased m f.ipiv
    info := f.info
    events := [Event.call Routine.getrf [m, m]] }

/-- Caller-visible state after `lu_inverse_factored`. -/
structure LuInverseFactoredState (α : Type) where
  a : List α
  ipiv : List Int
  work : List α
  info : Int
  events : List Event

/-- Wrapper `s_lu_inverse_factored(int n, float a[], int ipiv[], float work[], int lwork)`,
lines 131-144. -/
def s_lu_inverse_factored {α : Type} (L : Lapack α) (n : Nat) (a : List α) (ipiv : List Int)
    (work : List α) (lwork : Int) : LuInverseFactoredState α :=
  let ipiv1 := pivotsToOneBased n ipiv
  let g := L.getri n a n ipiv1 work lwork
  { a := g.a
    ipiv := pivotsToZeroBased n ipiv1
    work := g.work
    info := g.info
    events := [Event.call Routine.getri [n]] }

/-- Caller-visible state after `lu_solve_factored`. -/
structure LuSolveFactoredState (α : Type) where
  a : List α
  ipiv : List Int
  b : List α
  info : Int
  events : List Event

/-- Wrapper `s_lu_solve_factored(int n, int nrhs, float a[], int ipiv[], float b[])`,
lines 194-208. -/
def s_lu_solve_factored {α : Type} (L : Lapack α) (n nrhs : Nat) (a : List α)
    (ipiv : List Int) (b : List α) : LuSolveFactoredState α :=
  let ipiv1 := pivotsToOneBased n ipiv
  let s := L.getrs 'N' n nrhs a n ipiv1 b n
  { a := a
    ipiv := pivotsToZeroBased n ipiv1
    b := s.b
    info := s.info
    events := [Event.call Routine.getrs [n, nrhs]] }

/-- Caller-visible state after a from-scratch solve `lu_solve` / `cholesky_solve`. -/
structure SolveState (α : Type) where
  a : List α
  b : List α
  info : Int
  events : List Event

/-- Wrapper `s_lu_solve(int n, int nrhs, float a[], float b[])`, lines 258-278. -/
def s_lu_solve {α : Type} (L : Lapack α) (n nrhs : Nat) (a b : List α) : SolveState α :=
  let clone := a.take (n * n)
  let f := L.getrf n n clone n
  if f.info ≠ 0 then
    { a := a
      b := b
      info := f.info
      events := [Event.acquire Scratch.clone (n * n), Event.acquire Scratch.ipiv n,
        Event.call Routine.getrf [n, n],
        Event.release Scratch.ipiv, Event.release Scratch.clone] }
  else
    let s := L.getrs 'N' n nrhs f.a n f.ipiv b n
    { a := a
      b := s.b
      info := s.info
      events := [Event.acquire Scratch.clone (n * n), Event.acquire Scratch.ipiv n,
        Event.call Routine.getrf [n, n], Event.call Routine.getrs [n, nrhs],
        Event.release Scratch.ipiv, Event.release Scratch.clone] }

/-- Caller-visible state after `lu_inverse`. -/
structure LuInverseState (α : Type) where
  a : List α
  work : List α
  info : Int
  events : List Event

/-- Wrapper `s_lu_inverse(int n, float a[], float work[], int lwork)`, lines 67-81. -/
def s_lu_inverse {α : Type} (L : Lapack α) (n : Nat) (a work : List α) (lwork : Int) :
    LuInverseState α :=
  let f := L.getrf n n a n
  if f.info ≠ 0 then
    { a := f.a
      work := work
      info := f.info
      events := [Event.acquire Scratch.ipiv n, Event.call Routine.getrf [n, n],
        Event.release Scratch.ipiv] }
  else
    let g := L.getri n f.a n f.ipiv work lwork
    { a := g.a
      work := g.work
      info := g.info
      events := [Event.acquire Scratch.ipiv n, Event.call Routine.getrf [n, n],
        Event.call Routine.getri [n], Event.release Scratch.ipiv] }

/-! ## Cholesky wrappers -/

/-- The loops of `cholesky_factor` after the library call, with `zero` the value stored:
`for (i = 0; i < n; ++i) { index = i * n; for (j = 0; j < n && i > j; ++j) a[index + j] = zero; }`.
The inner loop runs over the longest initial segment of `0 .. n-1` on which `i > j`. -/
def zeroUpper {α : Type} (zero : α) (n : Nat) (a : List α) : List α :=
  (List.range n).foldl (fun a i =>
    let index := i * n
    ((List.range n).takeWhile (fun j => decide (i > j))).foldl
      (fun a j => a.set (index + j) zero) a) a

/-- Caller-visible state after `cholesky_factor`. -/
structure CholeskyFactorState (α : Type) where
  a : List α
  info : Int
  events : List Event

/-- Wrapper `s_cholesky_factor(int n, float a[])`, lines 346-359. -/
def s_cholesky_factor {α : Type} [Zero α] (L : Lapack α) (n : Nat) (a : List α) :
    CholeskyFactorState α :=
  let uplo := 'L'
  let f := L.potrf uplo n a n
  { a := zeroUpper 0 n f.a
    info := f.info
    events := [Event.call Routine.potrf [n]] }

/-- Wrapper `c_cholesky_factor(int n, MKL_Complex8 a[])`, lines 376-390; a complex element is the
pair of its real and imaginary parts. -/
def c_cholesky_factor {β : Type} [Zero β] (L : Lapack (β × β)) (n : Nat) (a : List (β × β)) :
    CholeskyFactorState (β × β) :=
  let uplo := 'L'
  let zero : β × β := (0, 0)
  let f := L.potrf uplo n a n
  { a := zeroUpper zero n f.a
    info := f.info
    events := [Event.call Routine.potrf [n]] }

/-- Wrapper `s_cholesky_solve(int n, int nrhs, float a[], float b[])`, lines 408-423. -/
def s_cholesky_solve {α : Type} (L : Lapack α) (n nrhs : Nat) (a b : List α) : SolveState α :=
  let clone := a.take (n * n)
  let uplo := 'L'
  let f := L.potrf uplo n clone n
  if f.info ≠ 0 then
    { a := a
      b := b
      info := f.info
      events := [Event.acquire Scratch.clone (n * n), Event.call Routine.potrf [n],
        Event.release Scratch.clone] }
  else
    let s := L.potrs uplo n nrhs f.a n b n
    { a := a
      b := s.b
      info := s.info
      events := [Event.acquire Scratch.clone (n * n), Event.call Routine.potrf [n],
        Event.call Routine.potrs [n, nrhs]] }

/-! ## QR wrappers -/

/-- The copy loops of `qr_factor`:
`for (i = 0; i < m; ++i) for (j = 0; j < m && j < n; ++j) if (i > j) q[j*m + i] = r[j*m + i];`. -/
def copyReflectors {α : Type} (m n : Nat) (r q : List α) : List α :=
  (List.range m).foldl (fun q i =>
    ((List.range m).takeWhile (fun j => decide (j < n))).foldl
      (fun q j => if i > j then copyAt q (j * m + i) r (j * m + i) else q) q) q

/-- The offsets at which the copy loops of `qr_factor` execute `q[j*m + i] = r[j*m + i]`, in
program order: outer `i`, inner `j` as long as `j < n`, kept when `i > j`. -/
def reflectorOffsets (m n : Nat) : List Nat :=
  (List.range m).flatMap (fun i =>
    (((List.range m).takeWhile (fun j => decide (j < n))).filter
      (fun j => decide (i > j))).map (fun j => j * m + i))

/-- Caller-visible state after `qr_factor`. -/
structure QrFactorState (α : Type) where
  r : List α
  tau : List α
  q : List α
  work : List α
  info : Int
  events : List Event

/-- Wrapper `s_qr_factor(int m, int n, float r[], float tau[], float q[], float work[], int len)`,
lines 508-535.  The buffer `tau` is an output of `geqrf_`; `info` is written by `geqrf_` and
then by `orgqr_`, and the value returned is the last one written. -/
def s_qr_factor {α : Type} (L : Lapack α) (m n : Nat) (r q work : List α) (len : Int) :
    QrFactorState α :=
  let g := L.geqrf m n r m work len
  let q1 := copyReflectors m n g.a q
  if m ≤ n then
    let o := L.orgqr m m m q1 m g.tau g.work len
    { r := g.a, tau := g.tau, q := o.a, work := o.work, info := o.info
      events := [Event.call Routine.geqrf [m, n], Event.call Routine.orgqr [m, m, m]] }
  else
    let o := L.orgqr m n n q1 m g.tau g.work len
    { r := g.a, tau := g.tau, q := o.a, work := o.work, info := o.info
      events := [Event.call Routine.geqrf [m, n], Event.call Routine.orgqr [m, n, n]] }

/-- The copy loops of `qr_solve` and `qr_solve_factored`:
`for (i = 0; i < n; ++i) for (j = 0; j < bn; ++j) x[j*n + i] = clone_b[j*m + i];`. -/
def copySolution {α : Type} (m n bn : Nat) (clone_b x : List α) : List α :=
  (List.range n).foldl (fun x i =>
    (List.range bn).foldl (fun x j => copyAt x (j * n + i) clone_b (j * m + i)) x) x

/-- Caller-visible state after `qr_solve`. -/
structure QrSolveState (α : Type) where
  r : List α
  b : List α
  x : List α
  work : List α
  info : Int
  events : List Event

/-- Wrapper `s_qr_solve(int m, int n, int bn, float r[], float b[], float x[], float work[], int len)`,
lines 624-659. -/
def s_qr_solve {α : Type} [One α] (L : Lapack α) (m n bn : Nat) (r b x work : List α)
    (len : Int) : QrSolveState α :=
  let clone_r := r.take (m * n)
  let g := L.geqrf m n clone_r m work len
  if g.info ≠ 0 then
    { r := r, b := b, x := x, work := g.work, info := g.info
      events := [Event.acquire Scratch.clone_r (m * n),
        Event.acquire Scratch.tau (max 1 (min m n)), Event.call Routine.geqrf [m, n],
        Event.release Scratch.clone_r, Event.release Scratch.tau] }
  else
    let clone_b := b.take (m * bn)
    let side := 'L'
    let tran := 'T'
    let o := L.ormqr side tran m bn n g.a m g.tau clone_b m g.work len
    let t := L.trsm Cblas.ColMajor Cblas.Left Cblas.Upper Cblas.NoTrans Cblas.NonUnit n bn 1
      g.a m o.c m
    { r := r, b := b, x := copySolution m n bn t x, work := o.work, info := o.info
      events := [Event.acquire Scratch.clone_r (m * n),
        Event.acquire Scratch.tau (max 1 (min m n)), Event.call Routine.geqrf [m, n],
        Event.acquire Scratch.clone_b (m * bn), Event.call Routine.ormqr [m, bn, n],
        Event.call Routine.trsm [n, bn],
        Event.release Scratch.clone_r, Event.release Scratch.tau,
        Event.release Scratch.clone_b] }

/-- Caller-visible state after `qr_solve_factored`. -/
structure QrSolveFactoredState (α : Type) where
  r : List α
  b : List α
  tau : List α
  x : List α
  work : List α
  info : Int
  events : List Event

/-- Wrapper `s_qr_solve_factored(int m, int n, int bn, float r[], float b[], float tau[], float x[],
float work[], int len)`, lines 779-800. -/
def s_qr_solve_factored {α : Type} [One α] (L : Lapack α) (m n bn : Nat)
    (r b tau x work : List α) (len : Int) : QrSolveFactoredState α :=
  let side := 'L'
  let tran := 'T'
  let clone_b := b.take (m * bn)
  let o := L.ormqr side tran m bn n r m tau clone_b m work len
  let t := L.trsm Cblas.ColMajor Cblas.Left Cblas.Upper Cblas.NoTrans Cblas.NonUnit n bn 1
    r m o.c m
  { r := r, b := b, tau := tau, x := copySolution m n bn t x, work := o.work, info := o.info
    events := [Event.acquire Scratch.clone_b (m * bn), Event.call Routine.ormqr [m, bn, n],
      Event.call Routine.trsm [n, bn], Event.release Scratch.clone_b] }

/-- The clone of the right-hand side in `qr_solve` / `qr_solve_factored` when the copy
loops start: `b.take (m*bn)` after `ormqr_('L', 'T', m, bn, n, r, m, tau, clone_b, m, ...)` and
`cblas_strsm(ColMajor, Left, Upper, NoTrans, NonUnit, n, bn, 1.0, r, m, clone_b, m)`, for the
factored matrix `r`, the reflector scalars `tau` and the workspace `work` these are called
with. -/
def solvedClone {α : Type} [One α] (L : Lapack α) (m n bn : Nat) (r tau b work : List α)
    (len : Int) : List α :=
  L.trsm Cblas.ColMajor Cblas.Left Cblas.Upper Cblas.NoTrans Cblas.NonUnit n bn 1 r m
    (L.ormqr 'L' 'T' m bn n r m tau (b.take (m * bn)) m work len).c m

/-- The copy loops of `qr_solve` and `qr_solve_factored` with a log of the offsets of
`clone_b` that the statement `x[j*n + i] = clone_b[j*m + i]` reads, in program order: the
first component is the output buffer, the second the log. -/
def copySolutionTraced {α : Type} (m n bn : Nat) (clone_b x : List α) : List α × List Nat :=
  (List.range n).foldl (fun st i =>
    (List.range bn).foldl
      (fun st j => (copyAt st.1 (j * n + i) clone_b (j * m + i), st.2 ++ [j * m + i])) st)
    (x, [])

/-! ## SVD wrapper (complex) -/

/-- Result of `cgesvd_`: the singular values `s` are real, the other buffers complex (pairs
of real and imaginary part). -/
structure GesvdOut (β : Type) where
  a : List (β × β)
  s : List β
  u : List (β × β)
  vt : List (β × β)
  work : List (β × β)
  info : Int

/-- Caller-visible state after `svd_factor`. -/
structure SvdState (β : Type) where
  a : List (β × β)
  s : List (β × β)
  u : List (β × β)
  v : List (β × β)
  work : List (β × β)
  info : Int
  events : List Event

/-- Wrapper `c_svd_factor(bool compute_vectors, int m, int n, MKL_Complex8 a[],
MKL_Complex8 s[], MKL_Complex8 u[], MKL_Complex8 v[], MKL_Complex8 work[], int len)`, lines
890-907.  The routine `cgesvd_(&job, &job, &m, &n, a, &lda, s_local, u, &ldu, v, &ldvt, work,
&len, rwork, &info)` is the parameter `gesvd`; `u` and `v`, which it leaves alone for the job
`'N'`, are passed and returned; `s_local` is its output and `rwork` its scratch, both
allocated by the wrapper. -/
def c_svd_factor {β : Type} [Zero β]
    (gesvd : (jobu jobvt : Char) → (m n : Nat) → (a : List (β × β)) → (lda : Nat) →
      (u : List (β × β)) → (ldu : Nat) → (vt : List (β × β)) → (ldvt : Nat) →
      (work : List (β × β)) → (lwork : Int) → GesvdOut β)
    (compute_vectors : Bool) (m n : Nat) (a s u v work : List (β × β)) (len : Int) :
    SvdState β :=
  let dim_s := min m n
  let job := if compute_vectors then 'A' else 'N'
  let g := gesvd job job m n a m u m v n work len
  let s1 := (List.range dim_s).foldl (fun s index =>
    match g.s[index]? with
    | some value => s.set index (value, 0)
    | none => s) s
  { a := g.a, s := s1, u := g.u, v := g.vt, work := g.work, info := g.info
    events := [Event.acquire Scratch.rwork (5 * dim_s), Event.acquire Scratch.s_local dim_s,
      Event.call Routine.gesvd [m, n],
      Event.release Scratch.rwork, Event.release Scratch.s_local] }

/-! ## Live scratch buffers -/

/-- The scratch buffers that are live after the events `es`, starting from the live buffers
`live`: `new` adds the buffer, `delete[]` removes it, a library call changes nothing. -/
def liveAfter (live : List Scratch) : List Event → List Scratch
  | [] => live
  | Event.acquire s _ :: es => liveAfter (s :: live) es
  | Event.release s :: es => liveAfter (live.erase s) es
  | Event.call _ _ :: es => liveAfter live es

/-! ## A concrete library instance

`idLapack` is a small instance of the library over `Int`, used to evaluate the wrappers on
concrete inputs.  Each routine does what the LAPACK routine does on matrices whose
factors are identities (upper triangular input for `getrf` and `geqrf`, diagonal input
for `potrf`), together with the documented argument check on the workspace length. -/

/-- Exchange rows `r1` and `r2` in each of the `nrhs` columns of `b` (leading dimension
`ldb`). -/
def swapRows (ldb nrhs : Nat) (b : List Int) (r1 r2 : Nat) : List Int :=
  (List.range nrhs).foldl (fun b j =>
    match b[j * ldb + r1]?, b[j * ldb + r2]? with
    | some u, some v => (b.set (j * ldb + r1) v).set (j * ldb + r2) u
    | _, _ => b) b

/-- One-based position of the first diagonal entry of `a` (leading dimension `lda`) among
the first `k` for which `bad` holds, and `0` when there is none. -/
def firstBadDiag (bad : Int → Bool) (k lda : Nat) (a : List Int) : Int :=
  match (List.range k).find? (fun i => bad (a.getD (i * lda + i) 0)) with
  | some i => (i : Int) + 1
  | none => 0

/-- The `m`-by-`n` column-major matrix with ones on the diagonal and zeros elsewhere. -/
def identityCols (m n : Nat) : List Int :=
  (List.range (m * n)).map (fun k => if k % m = k / m then 1 else 0)

/-- The concrete library instance. -/
def idLapack : Lapack Int where
  getrf m n a lda :=
    { a := a
      ipiv := (List.range (min m n)).map (fun i => (i : Int) + 1)
      info := firstBadDiag (fun v => v == 0) (min m n) lda a }
  getri n a _ _ work lwork :=
    { a := a, work := work, info := if lwork < max 1 (n : Int) then -6 else 0 }
  getrs _ n nrhs _ _ ipiv b ldb :=
    { b := (List.range n).foldl
        (fun b i => swapRows ldb nrhs b i ((ipiv.getD i 0) - 1).toNat) b
      info := 0 }
  potrf _ n a lda :=
    { a := a, info := firstBadDiag (fun v => decide (v ≤ 0)) n lda a }
  potrs _ _ _ _ _ b _ := { b := b, info := 0 }
  geqrf m n a _ work lwork :=
    { a := a, tau := List.replicate (min m n) 0, work := work
      info := if lwork < max 1 (n : Int) then -7 else 0 }
  orgqr m n k a _ _ work lwork :=
    if m < n then { a := a, work := work, info := -2 }
    else if n < k then { a := a, work := work, info := -3 }
    else if lwork < max 1 (n : Int) then { a := a, work := work, info := -8 }
    else { a := identityCols m n ++ a.drop (m * n), work := work, info := 0 }
  ormqr _ _ _ n _ _ _ _ c _ work lwork :=
    { c := c, work := work, info := if lwork < max 1 (n : Int) then -12 else 0 }
  trsm _ _ _ _ _ _ _ alpha _ _ b _ := b.map (fun v => alpha * v)

/-- A library instance over any element type that reports status 0 and leaves every
buffer as passed; `getrf` reports the pivots of no interchange and `geqrf` writes no
`tau`.  It instantiates the wrappers of complex element type. -/
def quietLapack (α : Type) : Lapack α where
  getrf m n a _ := { a := a, ipiv := (List.range (min m n)).map (fun i => (i : Int) + 1), info := 0 }
  getri _ a _ _ work _ := { a := a, work := work, info := 0 }
  getrs _ _ _ _ _ _ b _ := { b := b, info := 0 }
  potrf _ _ a _ := { a := a, info := 0 }
  potrs _ _ _ _ _ b _ := { b := b, info := 0 }
  geqrf _ _ a _ work _ := { a := a, tau := [], work := work, info := 0 }
  orgqr _ _ _ a _ _ work _ := { a := a, work := work, info := 0 }
  ormqr _ _ _ _ _ _ _ _ c _ work _ := { c := c, work := work, info := 0 }
  trsm _ _ _ _ _ _ _ _ _ _ b _ := b

/-- An instance of `cgesvd_` over `Int` pairs that reports status 0, leaves the buffers as
passed and writes `min m n` singular values equal to 1. -/
def quietGesvd (_jobu _jobvt : Char) (m n : Nat) (a : List (Int × Int)) (_lda : Nat)
    (u : List (Int × Int)) (_ldu : Nat) (vt : List (Int × Int)) (_ldvt : Nat)
    (work : List (Int × Int)) (_lwork : Int) : GesvdOut Int :=
  { a := a, s := List.replicate (min m n) 1, u := u, vt := vt, work := work, info := 0 }

/-! ## Lemmas on buffer accesses and loops -/

theorem updAt_length {β : Type} (buf : List β) (i : Nat) (f : β → β) :
    (updAt buf i f).length = buf.length := by
  unfold updAt
  split <;> simp

theorem updAt_getElem? {β : Type} (buf : List β) (i k : Nat) (f : β → β) :
    (updAt buf i f)[k]? = if k = i then (buf[k]?).map f else buf[k]? := by
  unfold updAt
  by_cases hk : k = i
  · subst hk
    cases h : buf[k]? with
    | none => simp [h]
    | some v =>
      have hlt : k < buf.length := by
        rcases List.getElem?_eq_some_iff.mp h with ⟨hlt, _⟩
        exact hlt
      simp [h, List.getElem?_set, hlt]
  · have hne : i ≠ k := fun e => hk e.symm
    cases h : buf[i]? with
    | none => simp [hk]
    | some v => simp [hk, List.getElem?_set_ne hne]

theorem foldl_updAt_getElem? {β : Type} (f : β → β) (n : Nat) (buf : List β) (k : Nat) :
    ((List.range n).foldl (fun p i => updAt p i f) buf)[k]?
      = if k < n then (buf[k]?).map f else buf[k]? := by
  induction n with
  | zero => simp
  | succ n ih =>
    rw [List.range_succ, List.foldl_append]
    simp only [List.foldl_cons, List.foldl_nil]
    rw [updAt_getElem?, ih]
    by_cases hk : k = n
    · subst hk
      simp
    · by_cases hlt : k < n
      · have : k < n + 1 := by omega
        simp [hk, hlt, this]
      · have : ¬ k < n + 1 := by omega
        simp [hk, hlt, this]

theorem foldl_updAt_length {β : Type} (f : β → β) (n : Nat) (buf : List β) :
    ((List.range n).foldl (fun p i => updAt p i f) buf).length = buf.length := by
  induction n with
  | zero => simp
  | succ n ih =>
    rw [List.range_succ, List.foldl_append]
    simp only [List.foldl_cons, List.foldl_nil]
    rw [updAt_length, ih]

theorem pivotsToOneBased_length (n : Nat) (p : List Int) :
    (pivotsToOneBased n p).length = p.length :=
  foldl_updAt_length _ n p

theorem pivotsToZeroBased_length (n : Nat) (p : List Int) :
    (pivotsToZeroBased n p).length = p.length :=
  foldl_updAt_length _ n p

theorem wrap32_of_isInt32 {x : Int} (h : IsInt32 x) : wrap32 x = x := by
  unfold IsInt32 at h
  unfold wrap32
  omega

theorem wrap32_succ_pred (x : Int) (h : IsInt32 x) : wrap32 (wrap32 (x + 1) - 1) = x := by
  unfold IsInt32 at h
  unfold wrap32
  omega

theorem wrap32_pred_succ (x : Int) (h : IsInt32 x) : wrap32 (wrap32 (x - 1) + 1) = x := by
  unfold IsInt32 at h
  unfold wrap32
  omega

theorem pivotsToOneBased_getElem? (n : Nat) (p : List Int) (k : Nat) :
    (pivotsToOneBased n p)[k]?
      = if k < n then (p[k]?).map (fun v => wrap32 (v + 1)) else p[k]? :=
  foldl_updAt_getElem? _ n p k

theorem pivotsToZeroBased_getElem? (n : Nat) (p : List Int) (k : Nat) :
    (pivotsToZeroBased n p)[k]?
      = if k < n then (p[k]?).map (fun v => wrap32 (v - 1)) else p[k]? :=
  foldl_updAt_getElem? _ n p k

/-- Incrementing then decrementing the first `n` pivots restores a vector of `int`s. -/
theorem pivots_one_zero (n : Nat) (p : List Int) (h : ∀ v ∈ p, IsInt32 v) :
    pivotsToZeroBased n (pivotsToOneBased n p) = p := by
  apply List.ext_getElem?
  intro k
  rw [pivotsToZeroBased_getElem?, pivotsToOneBased_getElem?]
  by_cases hk : k < n
  · simp only [hk, if_true]
    cases hv : p[k]? with
    | none => simp
    | some v =>
      have hmem : v ∈ p := List.getElem?_mem hv
      simp [wrap32_succ_pred v (h v hmem)]
  · simp [hk]

/-- Decrementing then incrementing the first `n` pivots restores a vector of `int`s. -/
theorem pivots_zero_one (n : Nat) (p : List Int) (h : ∀ v ∈ p, IsInt32 v) :
    pivotsToOneBased n (pivotsToZeroBased n p) = p := by
  apply List.ext_getElem?
  intro k
  rw [pivotsToOneBased_getElem?, pivotsToZeroBased_getElem?]
  by_cases hk : k < n
  · simp only [hk, if_true]
    cases hv : p[k]? with
    | none => simp
    | some v =>
      have hmem : v ∈ p := List.getElem?_mem hv
      simp [wrap32_pred_succ v (h v hmem)]
  · simp [hk]

/-! ## Loops that store into a buffer -/

theorem overwrite_idem {β : Type} (o w : Option β) :
    overwrite (overwrite o w) w = overwrite o w := by
  cases w <;> cases o <;> rfl

theorem overwrite_some_of_lt {β : Type} (a : List β) (k : Nat) (w : β) (h : k < a.length) :
    overwrite a[k]? (some w) = some w := by
  simp [overwrite, List.getElem?_eq_getElem h]

theorem paints_set {β : Type} (v : Nat → Option β) (d : Nat) (z : β) (hv : v d = some z) :
    Paints v (fun k => k = d) (fun a => a.set d z) := by
  intro a k
  constructor
  · intro hk
    subst hk
    rw [hv]
    by_cases hlt : k < a.length
    · simp [overwrite, List.getElem?_set, hlt]
    · simp [overwrite, List.getElem?_set, hlt, List.getElem?_eq_none (Nat.le_of_not_lt hlt)]
  · intro hk
    exact List.getElem?_set_ne (fun e => hk e.symm)

theorem paints_copyAt {β : Type} (v : Nat → Option β) (d s : Nat) (src : List β)
    (hv : v d = src[s]?) :
    Paints v (fun k => k = d) (fun dst => copyAt dst d src s) := by
  intro a k
  unfold copyAt
  cases hs : src[s]? with
  | none =>
    constructor
    · intro hk
      subst hk
      simp [hv, hs, overwrite]
    · intro _
      rfl
  | some w =>
    have := paints_set v d w (by rw [hv, hs]) a k
    exact this

theorem paints_skip {β : Type} (v : Nat → Option β) :
    Paints v (fun _ => False) (fun a : List β => a) := by
  intro a k
  exact ⟨fun h => h.elim, fun _ => rfl⟩

theorem paints_congr {β : Type} (v : Nat → Option β) (W W' : Nat → Prop)
    (S : List β → List β) (h : ∀ k, W k ↔ W' k) (hp : Paints v W S) : Paints v W' S := by
  intro a k
  exact ⟨fun hw => (hp a k).1 ((h k).mpr hw), fun hw => (hp a k).2 (fun h' => hw ((h k).mp h'))⟩

theorem paints_foldl {ι β : Type} (v : Nat → Option β) (W : ι → Nat → Prop)
    (step : ι → List β → List β) (l : List ι) (h : ∀ i ∈ l, Paints v (W i) (step i)) :
    Paints v (fun k => ∃ i ∈ l, W i k) (fun a => l.foldl (fun a i => step i a) a) := by
  induction l with
  | nil =>
    intro a k
    simp
  | cons i l ih =>
    intro a k
    simp only [List.foldl_cons]
    have hi := h i (List.mem_cons_self _ _) a k
    have hl := ih (fun i' hi' => h i' (List.mem_cons_of_mem _ hi')) (step i a) k
    constructor
    · rintro ⟨i', hi', hw⟩
      by_cases hex : ∃ i'' ∈ l, W i'' k
      · rw [hl.1 hex]
        by_cases hwi : W i k
        · rw [hi.1 hwi, overwrite_idem]
        · rw [hi.2 hwi]
      · rw [hl.2 hex]
        rcases List.mem_cons.mp hi' with he | hm
        · subst he
          exact hi.1 hw
        · exact (hex ⟨i', hm, hw⟩).elim
    · intro hn
      rw [hl.2 (fun ⟨i', hi', hw⟩ => hn ⟨i', List.mem_cons_of_mem _ hi', hw⟩),
        hi.2 (fun hw => hn ⟨i, List.mem_cons_self _ _, hw⟩)]

theorem paints_length {β : Type} (v : Nat → Option β) (W : Nat → Prop)
    (S : List β → List β) (hp : Paints v W S) (a : List β) : (S a).length = a.length := by
  have hnone : ∀ k : Nat, ((S a)[k]? = none) ↔ (a[k]? = none) := by
    intro k
    by_cases hw : W k
    · rw [(hp a k).1 hw]
      generalize v k = w
      generalize (a[k]? : Option β) = o
      cases w <;> cases o <;> simp [overwrite]
    · rw [(hp a k).2 hw]
  have h1 : ¬ (S a).length < a.length := by
    intro hlt
    have := (hnone (S a).length).mp (List.getElem?_eq_none (Nat.le_refl _))
    rw [List.getElem?_eq_getElem hlt] at this
    exact Option.noConfusion this
  have h2 : ¬ a.length < (S a).length := by
    intro hlt
    have := (hnone a.length).mpr (List.getElem?_eq_none (Nat.le_refl _))
    rw [List.getElem?_eq_getElem hlt] at this
    exact Option.noConfusion this
  omega

/-! ## Iteration spaces and offsets -/

theorem takeWhile_lt_range' (b n s : Nat) :
    (List.range' s n).takeWhile (fun j => decide (j < b)) = List.range' s (min n (b - s)) := by
  induction n generalizing s with
  | zero => simp
  | succ n ih =>
    rw [List.range'_succ, List.takeWhile_cons]
    by_cases hs : s < b
    · have h1 : min (n + 1) (b - s) = min n (b - (s + 1)) + 1 := by omega
      rw [h1, List.range'_succ, ih]
      simp [hs]
    · have h1 : min (n + 1) (b - s) = 0 := by omega
      rw [h1]
      simp [hs]

theorem takeWhile_lt_range (b n : Nat) :
    (List.range n).takeWhile (fun j => decide (j < b)) = List.range (min n b) := by
  rw [List.range_eq_range', takeWhile_lt_range', List.range_eq_range']
  simp

theorem offset_unique {n r c i j : Nat} (hr : r < n) (hj : j < n)
    (h : c * n + r = i * n + j) : c = i ∧ r = j := by
  have hc : c = i := by
    rcases Nat.lt_trichotomy c i with hlt | heq | hgt
    · have := Nat.mul_le_mul_right n (show c + 1 ≤ i from hlt)
      rw [Nat.add_mul] at this
      omega
    · exact heq
    · have := Nat.mul_le_mul_right n (show i + 1 ≤ c from hgt)
      rw [Nat.add_mul] at this
      omega
  subst hc
  exact ⟨rfl, by omega⟩

theorem offset_lt {n r c k : Nat} (hr : r < n) (hc : c < k) : c * n + r < n * k := by
  have := Nat.mul_le_mul_right n (show c + 1 ≤ k from hc)
  rw [Nat.add_mul, Nat.mul_comm k n] at this
  omega

theorem div_mod_offset {n i j : Nat} (hi : i < n) :
    (j * n + i) / n = j ∧ (j * n + i) % n = i := by
  have hpos : 0 < n := by omega
  constructor
  · rw [Nat.add_comm, Nat.add_mul_div_right _ _ hpos, Nat.div_eq_of_lt hi, Nat.zero_add]
  · rw [Nat.add_comm, Nat.add_mul_mod_self_right, Nat.mod_eq_of_lt hi]

theorem zeroUpper_paints {α : Type} (zero : α) (n : Nat) :
    Paints (fun _ => some zero) (fun k => ∃ c r, r < c ∧ c < n ∧ k = c * n + r)
      (zeroUpper zero n) := by
  have inner : ∀ i, Paints (fun _ => some zero)
      (fun k => ∃ j ∈ (List.range n).takeWhile (fun j => decide (i > j)), k = i * n + j)
      (fun a => ((List.range n).takeWhile (fun j => decide (i > j))).foldl
        (fun a j => a.set (i * n + j) zero) a) :=
    fun i => paints_foldl _ (fun j k => k = i * n + j) (fun j a => a.set (i * n + j) zero) _
      (fun j _ => paints_set _ _ _ rfl)
  have outer := paints_foldl (fun _ => some zero)
    (fun i k => ∃ j ∈ (List.range n).takeWhile (fun j => decide (i > j)), k = i * n + j)
    (fun i a => ((List.range n).takeWhile (fun j => decide (i > j))).foldl
      (fun a j => a.set (i * n + j) zero) a) (List.range n) (fun i _ => inner i)
  refine paints_congr _ _ _ _ ?_ outer
  intro k
  have htw : ∀ i, (List.range n).takeWhile (fun j => decide (i > j)) = List.range (min n i) :=
    fun i => takeWhile_lt_range i n
  constructor
  · rintro ⟨i, hi, j, hj, hk⟩
    rw [htw, List.mem_range] at hj
    rw [List.mem_range] at hi
    exact ⟨i, j, by omega, hi, hk⟩
  · rintro ⟨c, r, hrc, hc, hk⟩
    refine ⟨c, List.mem_range.mpr hc, r, ?_, hk⟩
    rw [htw, List.mem_range]
    omega

theorem mem_reflectorOffsets (m n k : Nat) :
    k ∈ reflectorOffsets m n ↔ ∃ i j, j < min m n ∧ j < i ∧ i < m ∧ k = j * m + i := by
  unfold reflectorOffsets
  rw [takeWhile_lt_range]
  simp only [List.mem_flatMap, List.mem_map, List.mem_filter, List.mem_range,
    decide_eq_true_eq]
  constructor
  · rintro ⟨i, hi, j, ⟨hj, hij⟩, hk⟩
    exact ⟨i, j, hj, hij, hi, hk.symm⟩
  · rintro ⟨i, j, hj, hij, hi, hk⟩
    exact ⟨i, hi, j, ⟨hj, hij⟩, hk.symm⟩

theorem copyReflectors_paints {α : Type} (m n : Nat) (r : List α) :
    Paints (fun k => r[k]?) (fun k => k ∈ reflectorOffsets m n) (copyReflectors m n r) := by
  have step : ∀ i j, Paints (fun k => r[k]?) (fun k => i > j ∧ k = j * m + i)
      (fun q => if i > j then copyAt q (j * m + i) r (j * m + i) else q) := by
    intro i j
    by_cases hij : i > j
    · simp only [hij, if_true]
      exact paints_congr _ _ _ _ (fun k => by simp [hij]) (paints_copyAt _ _ _ r rfl)
    · simp only [hij, if_false]
      exact paints_congr _ _ _ _ (fun k => by simp [hij]) (paints_skip _)
  have inner : ∀ i, Paints (fun k => r[k]?)
      (fun k => ∃ j ∈ (List.range m).takeWhile (fun j => decide (j < n)),
        i > j ∧ k = j * m + i)
      (fun q => ((List.range m).takeWhile (fun j => decide (j < n))).foldl
        (fun q j => if i > j then copyAt q (j * m + i) r (j * m + i) else q) q) :=
    fun i => paints_foldl _ (fun j k => i > j ∧ k = j * m + i)
      (fun j q => if i > j then copyAt q (j * m + i) r (j * m + i) else q) _
      (fun j _ => step i j)
  have outer := paints_foldl (fun k => r[k]?)
    (fun i k => ∃ j ∈ (List.range m).takeWhile (fun j => decide (j < n)),
      i > j ∧ k = j * m + i)
    (fun i q => ((List.range m).takeWhile (fun j => decide (j < n))).foldl
      (fun q j => if i > j then copyAt q (j * m + i) r (j * m + i) else q) q)
    (List.range m) (fun i _ => inner i)
  refine paints_congr _ _ _ _ ?_ outer
  intro k
  rw [mem_reflectorOffsets, takeWhile_lt_range]
  simp only [List.mem_range]
  constructor
  · rintro ⟨i, hi, j, hj, hij, hk⟩
    exact ⟨i, j, hj, hij, hi, hk⟩
  · rintro ⟨i, j, hj, hij, hi, hk⟩
    exact ⟨i, hi, j, hj, hij, hk⟩

theorem copySolution_paints {α : Type} (m n bn : Nat) (cb : List α) :
    Paints (fun k => cb[(k / n) * m + k % n]?)
      (fun k => ∃ i j, i < n ∧ j < bn ∧ k = j * n + i) (copySolution m n bn cb) := by
  have inner : ∀ i, i < n → Paints (fun k => cb[(k / n) * m + k % n]?)
      (fun k => ∃ j ∈ List.range bn, k = j * n + i)
      (fun x => (List.range bn).foldl
        (fun x j => copyAt x (j * n + i) cb (j * m + i)) x) :=
    fun i hi => paints_foldl _ (fun j k => k = j * n + i)
      (fun j x => copyAt x (j * n + i) cb (j * m + i)) _
      (fun j _ => paints_copyAt _ _ _ cb (by
        show cb[((j * n + i) / n) * m + (j * n + i) % n]? = cb[j * m + i]?
        rw [(div_mod_offset hi).1, (div_mod_offset hi).2]))
  have outer := paints_foldl (fun k => cb[(k / n) * m + k % n]?)
    (fun i k => ∃ j ∈ List.range bn, k = j * n + i)
    (fun i x => (List.range bn).foldl
      (fun x j => copyAt x (j * n + i) cb (j * m + i)) x)
    (List.range n) (fun i hi => inner i (List.mem_range.mp hi))
  refine paints_congr _ _ _ _ ?_ outer
  intro k
  simp only [List.mem_range]
  constructor
  · rintro ⟨i, hi, j, hj, hk⟩
    exact ⟨i, j, hi, hj, hk⟩
  · rintro ⟨i, j, hi, hj, hk⟩
    exact ⟨i, hi, j, hj, hk⟩

/-! ## LU: factor, then solve from the factorization -/

/-- C1: with the library's `getrf` and `getrs` fixed functions, for every order `n`,
right-hand-side count `nrhs`, `n`-by-`n` matrix `A` and right-hand side `b` such that the
factorization of `A` reports status 0, `lu_factor` on `A` followed by `lu_solve_factored`
with the factored matrix, the 0-based pivots and `b` gives the same final right-hand-side
buffer and the same status as `lu_solve(A, b)`.  The pivots the library writes are C
`int`s. -/
theorem lu_factor_solve_factored_eq_lu_solve {α : Type} (L : Lapack α) (n nrhs : Nat)
    (A b : List α) (hA : A.length = n * n)
    (hpiv : ∀ v ∈ (L.getrf n n A n).ipiv, IsInt32 v)
    (h0 : (L.getrf n n A n).info = 0) :
    (s_lu_solve_factored L n nrhs (s_lu_factor L n A).a (s_lu_factor L n A).ipiv b).b
        = (s_lu_solve L n nrhs A b).b ∧
    (s_lu_solve_factored L n nrhs (s_lu_factor L n A).a (s_lu_factor L n A).ipiv b).info
        = (s_lu_solve L n nrhs A b).info := by
  have hclone : A.take (n * n) = A := List.take_of_length_le (by omega)
  have hback : pivotsToOneBased n (pivotsToZeroBased n (L.getrf n n A n).ipiv)
      = (L.getrf n n A n).ipiv := pivots_zero_one n _ hpiv
  simp only [s_lu_solve_factored, s_lu_factor, s_lu_solve, hclone, hback, h0, ne_eq,
    not_true_eq_false, if_false]
  exact ⟨trivial, trivial⟩

theorem lu_factor_solve_factored_eq_lu_solve_witness :
    ([2, 0, 3, 5] : List Int).length = 2 * 2 ∧
    (∀ v ∈ (idLapack.getrf 2 2 [2, 0, 3, 5] 2).ipiv, IsInt32 v) ∧
    (idLapack.getrf 2 2 [2, 0, 3, 5] 2).info = 0 ∧
    (s_lu_solve_factored idLapack 2 1 (s_lu_factor idLapack 2 [2, 0, 3, 5]).a
        (s_lu_factor idLapack 2 [2, 0, 3, 5]).ipiv [7, 9]).b
      = (s_lu_solve idLapack 2 1 [2, 0, 3, 5] [7, 9]).b ∧
    (s_lu_solve_factored idLapack 2 1 (s_lu_factor idLapack 2 [2, 0, 3, 5]).a
        (s_lu_factor idLapack 2 [2, 0, 3, 5]).ipiv [7, 9]).info
      = (s_lu_solve idLapack 2 1 [2, 0, 3, 5] [7, 9]).info :=
  ⟨by decide, by decide, by decide,
    lu_factor_solve_factored_eq_lu_solve idLapack 2 1 [2, 0, 3, 5] [7, 9]
      (by decide) (by decide) (by decide)⟩

/-! ## LU: the pivot convention -/

/-- C2: for every order `n`, every pivot vector of `n` C `int`s and every behaviour of the
library (so every status), the pivot vector read back after `lu_solve_factored`, and after
`lu_inverse_factored`, equals the pivot vector passed in: the `+= 1` loop before the
library call is undone by the `-= 1` loop after it (the library routines take the pivots as
an input argument). -/
theorem factored_calls_restore_pivots {α : Type} (L : Lapack α) (n nrhs : Nat)
    (a b work : List α) (lwork : Int) (ipiv : List Int)
    (hlen : ipiv.length = n) (hint : ∀ v ∈ ipiv, IsInt32 v) :
    (s_lu_solve_factored L n nrhs a ipiv b).ipiv = ipiv ∧
    (s_lu_inverse_factored L n a ipiv work lwork).ipiv = ipiv := by
  have _hl := hlen
  exact ⟨pivots_one_zero n ipiv hint, pivots_one_zero n ipiv hint⟩

theorem factored_calls_restore_pivots_witness :
    ([1, 0, 2147483647] : List Int).length = 3 ∧
    (∀ v ∈ ([1, 0, 2147483647] : List Int), IsInt32 v) ∧
    (s_lu_solve_factored idLapack 3 1 [1, 0, 0, 0, 1, 0, 0, 0, 1] [1, 0, 2147483647]
        [4, 5, 6]).ipiv = [1, 0, 2147483647] ∧
    (s_lu_inverse_factored idLapack 3 [1, 0, 0, 0, 1, 0, 0, 0, 1] [1, 0, 2147483647]
        [0, 0, 0] 3).ipiv = [1, 0, 2147483647] :=
  ⟨by decide, by decide,
    factored_calls_restore_pivots idLapack 3 1 [1, 0, 0, 0, 1, 0, 0, 0, 1] [4, 5, 6] [0, 0, 0] 3
      [1, 0, 2147483647] (by decide) (by decide)⟩

/-- C3: for every order `n` (a C `int`) and matrix `a`, if the library factorization writes
`n` one-based pivots `p[i]` with `1 ≤ p[i] ≤ n`, then `lu_factor` returns `n` pivots, entry
`i` being `p[i] - 1`, every returned pivot lies in `[0, n)`, and the matrix buffer and the
status returned are those of the library. -/
theorem lu_factor_pivots_zero_based {α : Type} (L : Lapack α) (n : Nat) (a : List α)
    (hn : (n : Int) < 2147483648)
    (hlen : (L.getrf n n a n).ipiv.length = n)
    (hp : ∀ v ∈ (L.getrf n n a n).ipiv, 1 ≤ v ∧ v ≤ (n : Int)) :
    (s_lu_factor L n a).ipiv.length = n ∧
    (∀ i, i < n →
      (s_lu_factor L n a).ipiv[i]? = ((L.getrf n n a n).ipiv[i]?).map (fun p => p - 1)) ∧
    (∀ v ∈ (s_lu_factor L n a).ipiv, 0 ≤ v ∧ v < (n : Int)) ∧
    (s_lu_factor L n a).a = (L.getrf n n a n).a ∧
    (s_lu_factor L n a).info = (L.getrf n n a n).info := by
  have hget : ∀ i, i < n →
      (pivotsToZeroBased n (L.getrf n n a n).ipiv)[i]?
        = ((L.getrf n n a n).ipiv[i]?).map (fun p => p - 1) := by
    intro i hi
    rw [pivotsToZeroBased_getElem?, if_pos hi]
    cases hv : (L.getrf n n a n).ipiv[i]? with
    | none => simp
    | some v =>
      have hb := hp v (List.getElem?_mem hv)
      have hw : wrap32 (v - 1) = v - 1 := wrap32_of_isInt32 (by unfold IsInt32; omega)
      simp [hw]
  have hlen2 : (pivotsToZeroBased n (L.getrf n n a n).ipiv).length = n := by
    rw [pivotsToZeroBased_length, hlen]
  refine ⟨hlen2, hget, ?_, rfl, rfl⟩
  intro v hv
  obtain ⟨i, hi⟩ := List.mem_iff_getElem?.mp hv
  have hin : i < n := by
    have := (List.getElem?_eq_some_iff.mp hi).1
    change i < (pivotsToZeroBased n (L.getrf n n a n).ipiv).length at this
    omega
  have h2 := hget i hin
  change (pivotsToZeroBased n (L.getrf n n a n).ipiv)[i]? = some v at hi
  rw [hi] at h2
  cases hq : (L.getrf n n a n).ipiv[i]? with
  | none => rw [hq] at h2; exact Option.noConfusion h2
  | some q =>
    rw [hq] at h2
    have hb := hp q (List.getElem?_mem hq)
    have hvq : v = q - 1 := by simpa using h2
    omega

theorem lu_factor_pivots_zero_based_witness :
    ((3 : Nat) : Int) < 2147483648 ∧
    (idLapack.getrf 3 3 [2, 0, 0, 1, 3, 0, 4, 5, 6] 3).ipiv.length = 3 ∧
    (∀ v ∈ (idLapack.getrf 3 3 [2, 0, 0, 1, 3, 0, 4, 5, 6] 3).ipiv,
      1 ≤ v ∧ v ≤ ((3 : Nat) : Int)) ∧
    (s_lu_factor idLapack 3 [2, 0, 0, 1, 3, 0, 4, 5, 6]).ipiv.length = 3 ∧
    (∀ i, i < 3 →
      (s_lu_factor idLapack 3 [2, 0, 0, 1, 3, 0, 4, 5, 6]).ipiv[i]?
        = ((idLapack.getrf 3 3 [2, 0, 0, 1, 3, 0, 4, 5, 6] 3).ipiv[i]?).map
            (fun p => p - 1)) ∧
    (∀ v ∈ (s_lu_factor idLapack 3 [2, 0, 0, 1, 3, 0, 4, 5, 6]).ipiv,
      0 ≤ v ∧ v < ((3 : Nat) : Int)) ∧
    (s_lu_factor idLapack 3 [2, 0, 0, 1, 3, 0, 4, 5, 6]).a
      = (idLapack.getrf 3 3 [2, 0, 0, 1, 3, 0, 4, 5, 6] 3).a ∧
    (s_lu_factor idLapack 3 [2, 0, 0, 1, 3, 0, 4, 5, 6]).info
      = (idLapack.getrf 3 3 [2, 0, 0, 1, 3, 0, 4, 5, 6] 3).info :=
  ⟨by decide, by decide, by decide,
    lu_factor_pivots_zero_based idLapack 3 [2, 0, 0, 1, 3, 0, 4, 5, 6]
      (by decide) (by decide) (by decide)⟩

/-! ## Cholesky: the upper triangle -/

/-- C4: for every order `n` and every column-major buffer (element (row `r`, column `c`) at
offset `c*n + r`) that holds the `n`-by-`n` matrix after the library call, after
`cholesky_factor` every element strictly above the diagonal (`r < c`) is exactly zero, every
element on or below the diagonal (`r ≥ c`) is the value the library's factorization left
there, and the status is the library's; for the real (`s_`) and the complex (`c_`)
wrapper. -/
theorem cholesky_factor_upper_zero {α β : Type} [Zero α] [Zero β] (L : Lapack α)
    (Lc : Lapack (β × β)) (n : Nat) (a : List α) (ac : List (β × β))
    (hlen : n * n ≤ (L.potrf 'L' n a n).a.length)
    (hlenc : n * n ≤ (Lc.potrf 'L' n ac n).a.length) :
    ((∀ r c, r < c → c < n → (s_cholesky_factor L n a).a[c * n + r]? = some 0) ∧
     (∀ r c, c ≤ r → r < n →
        (s_cholesky_factor L n a).a[c * n + r]? = (L.potrf 'L' n a n).a[c * n + r]?) ∧
     (s_cholesky_factor L n a).info = (L.potrf 'L' n a n).info) ∧
    ((∀ r c, r < c → c < n → (c_cholesky_factor Lc n ac).a[c * n + r]? = some (0, 0)) ∧
     (∀ r c, c ≤ r → r < n →
        (c_cholesky_factor Lc n ac).a[c * n + r]? = (Lc.potrf 'L' n ac n).a[c * n + r]?) ∧
     (c_cholesky_factor Lc n ac).info = (Lc.potrf 'L' n ac n).info) := by
  have key : ∀ {γ : Type} (zero : γ) (buf : List γ), n * n ≤ buf.length →
      (∀ r c, r < c → c < n → (zeroUpper zero n buf)[c * n + r]? = some zero) ∧
      (∀ r c, c ≤ r → r < n → (zeroUpper zero n buf)[c * n + r]? = buf[c * n + r]?) := by
    intro γ zero buf hbuf
    constructor
    · intro r c hrc hc
      have hlt : c * n + r < n * n := offset_lt (by omega) hc
      rw [((zeroUpper_paints zero n) buf (c * n + r)).1 ⟨c, r, hrc, hc, rfl⟩]
      exact overwrite_some_of_lt buf _ zero (by omega)
    · intro r c hcr hr
      apply ((zeroUpper_paints zero n) buf (c * n + r)).2
      rintro ⟨c', r', hrc', hc', hk⟩
      have := offset_unique hr (show r' < n by omega) hk
      omega
  exact ⟨⟨(key 0 _ hlen).1, (key 0 _ hlen).2, rfl⟩, ⟨(key (0, 0) _ hlenc).1, (key (0, 0) _ hlenc).2, rfl⟩⟩

theorem cholesky_factor_upper_zero_witness :
    2 * 2 ≤ (idLapack.potrf 'L' 2 [4, 2, 2, 3] 2).a.length ∧
    2 * 2 ≤ ((quietLapack (Int × Int)).potrf 'L' 2 [(4, 0), (2, 1), (2, -1), (3, 0)] 2).a.length ∧
    ((∀ r c, r < c → c < 2 → (s_cholesky_factor idLapack 2 [4, 2, 2, 3]).a[c * 2 + r]? = some 0) ∧
     (∀ r c, c ≤ r → r < 2 →
        (s_cholesky_factor idLapack 2 [4, 2, 2, 3]).a[c * 2 + r]?
          = (idLapack.potrf 'L' 2 [4, 2, 2, 3] 2).a[c * 2 + r]?) ∧
     (s_cholesky_factor idLapack 2 [4, 2, 2, 3]).info
        = (idLapack.potrf 'L' 2 [4, 2, 2, 3] 2).info) ∧
    ((∀ r c, r < c → c < 2 →
        (c_cholesky_factor (quietLapack (Int × Int)) 2 [(4, 0), (2, 1), (2, -1), (3, 0)]).a[c * 2 + r]?
          = some (0, 0)) ∧
     (∀ r c, c ≤ r → r < 2 →
        (c_cholesky_factor (quietLapack (Int × Int)) 2 [(4, 0), (2, 1), (2, -1), (3, 0)]).a[c * 2 + r]?
          = ((quietLapack (Int × Int)).potrf 'L' 2 [(4, 0), (2, 1), (2, -1), (3, 0)] 2).a[c * 2 + r]?) ∧
     (c_cholesky_factor (quietLapack (Int × Int)) 2 [(4, 0), (2, 1), (2, -1), (3, 0)]).info
        = ((quietLapack (Int × Int)).potrf 'L' 2 [(4, 0), (2, 1), (2, -1), (3, 0)] 2).info) :=
  ⟨by decide, by decide,
    cholesky_factor_upper_zero idLapack (quietLapack (Int × Int)) 2 [4, 2, 2, 3]
      [(4, 0), (2, 1), (2, -1), (3, 0)] (by decide) (by decide)⟩

/-! ## From-scratch solves: what the caller's inputs look like afterwards -/

/-- C5: for every input and every behaviour of the library (so every status), `lu_solve`,
`cholesky_solve` and `qr_solve` leave the caller's coefficient-matrix buffer equal to its
value at entry (the factorization runs on the internal clone), and `qr_solve` also leaves
the caller's right-hand-side buffer equal to its value at entry. -/
theorem scratch_solves_keep_inputs {α : Type} [One α] (L : Lapack α) (m n nrhs bn : Nat)
    (a b r x work : List α) (len : Int) :
    (s_lu_solve L n nrhs a b).a = a ∧
    (s_cholesky_solve L n nrhs a b).a = a ∧
    (s_qr_solve L m n bn r b x work len).r = r ∧
    (s_qr_solve L m n bn r b x work len).b = b := by
  refine ⟨?_, ?_, ?_, ?_⟩
  · unfold s_lu_solve
    by_cases h : (L.getrf n n (a.take (n * n)) n).info = 0 <;> simp [h]
  · unfold s_cholesky_solve
    by_cases h : (L.potrf 'L' n (a.take (n * n)) n).info = 0 <;> simp [h]
  · unfold s_qr_solve
    by_cases h : (L.geqrf m n (r.take (m * n)) m work len).info = 0 <;> simp [h]
  · unfold s_qr_solve
    by_cases h : (L.geqrf m n (r.take (m * n)) m work len).info = 0 <;> simp [h]

/-- C6: for `lu_solve`, `cholesky_solve` and `qr_solve`, whenever the library's
factorization step (run on the clone) reports a non-zero status, the wrapper returns that
status, makes no call to the subsequent library solve step (`getrs`; `potrs`; `ormqr` and
`trsm`), and leaves the caller's solution buffer (the right-hand side `b`; for `qr_solve`
the output `x`) equal to its value at entry. -/
theorem failed_factorization_stops_solve {α : Type} [One α] (L : Lapack α)
    (m n nrhs bn : Nat) (a b r x work : List α) (len : Int) :
    ((L.getrf n n (a.take (n * n)) n).info ≠ 0 →
      (s_lu_solve L n nrhs a b).info = (L.getrf n n (a.take (n * n)) n).info ∧
      (s_lu_solve L n nrhs a b).b = b ∧
      ∀ dims, Event.call Routine.getrs dims ∉ (s_lu_solve L n nrhs a b).events) ∧
    ((L.potrf 'L' n (a.take (n * n)) n).info ≠ 0 →
      (s_cholesky_solve L n nrhs a b).info = (L.potrf 'L' n (a.take (n * n)) n).info ∧
      (s_cholesky_solve L n nrhs a b).b = b ∧
      ∀ dims, Event.call Routine.potrs dims ∉ (s_cholesky_solve L n nrhs a b).events) ∧
    ((L.geqrf m n (r.take (m * n)) m work len).info ≠ 0 →
      (s_qr_solve L m n bn r b x work len).info
        = (L.geqrf m n (r.take (m * n)) m work len).info ∧
      (s_qr_solve L m n bn r b x work len).x = x ∧
      ∀ dims, Event.call Routine.ormqr dims ∉ (s_qr_solve L m n bn r b x work len).events ∧
        Event.call Routine.trsm dims ∉ (s_qr_solve L m n bn r b x work len).events) := by
  refine ⟨?_, ?_, ?_⟩
  · intro h
    unfold s_lu_solve
    simp [h]
  · intro h
    unfold s_cholesky_solve
    simp [h]
  · intro h
    unfold s_qr_solve
    simp [h]

theorem failed_factorization_stops_solve_witness :
    ((idLapack.getrf 2 2 (([0, 0, 0, 1] : List Int).take (2 * 2)) 2).info ≠ 0 ∧
      (s_lu_solve idLapack 2 1 [0, 0, 0, 1] [7, 9]).info = 1 ∧
      (s_lu_solve idLapack 2 1 [0, 0, 0, 1] [7, 9]).b = [7, 9] ∧
      ∀ dims, Event.call Routine.getrs dims
        ∉ (s_lu_solve idLapack 2 1 [0, 0, 0, 1] [7, 9]).events) ∧
    ((idLapack.potrf 'L' 2 (([-1, 5, 5, 1] : List Int).take (2 * 2)) 2).info ≠ 0 ∧
      (s_cholesky_solve idLapack 2 1 [-1, 5, 5, 1] [7, 9]).info = 1 ∧
      (s_cholesky_solve idLapack 2 1 [-1, 5, 5, 1] [7, 9]).b = [7, 9] ∧
      ∀ dims, Event.call Routine.potrs dims
        ∉ (s_cholesky_solve idLapack 2 1 [-1, 5, 5, 1] [7, 9]).events) ∧
    ((idLapack.geqrf 2 2 (([1, 0, 0, 1] : List Int).take (2 * 2)) 2 [0] 1).info ≠ 0 ∧
      (s_qr_solve idLapack 2 2 1 [1, 0, 0, 1] [7, 9] [0, 0] [0] 1).info = -7 ∧
      (s_qr_solve idLapack 2 2 1 [1, 0, 0, 1] [7, 9] [0, 0] [0] 1).x = [0, 0] ∧
      ∀ dims, Event.call Routine.ormqr dims
          ∉ (s_qr_solve idLapack 2 2 1 [1, 0, 0, 1] [7, 9] [0, 0] [0] 1).events ∧
        Event.call Routine.trsm dims
          ∉ (s_qr_solve idLapack 2 2 1 [1, 0, 0, 1] [7, 9] [0, 0] [0] 1).events) :=
  ⟨⟨by decide,
      ((failed_factorization_stops_solve idLapack 2 2 1 1 [0, 0, 0, 1] [7, 9] [1, 0, 0, 1]
        [0, 0] [0] 1).1 (by decide))⟩,
    ⟨by decide,
      ((failed_factorization_stops_solve idLapack 2 2 1 1 [-1, 5, 5, 1] [7, 9] [1, 0, 0, 1]
        [0, 0] [0] 1).2.1 (by decide))⟩,
    ⟨by decide,
      ((failed_factorization_stops_solve idLapack 2 2 1 1 [0, 0, 0, 1] [7, 9] [1, 0, 0, 1]
        [0, 0] [0] 1).2.2 (by decide))⟩⟩

/-! ## QR solve: the layout of the output -/

/-- C7: for every `m ≥ n` and right-hand-side count `bn`, with an output buffer of at least
`n*bn` elements and a clone that still holds `m*bn` elements after `ormqr` and `trsm`: when
`qr_solve_factored` completes, and when `qr_solve` completes after a successful factorization,
the output holds at offset `j*n + i`, for every `i < n` and `j < bn`, the element at offset
`j*m + i` of the clone after the reflector application and the triangular solve; the output
beyond the `n*bn` leading elements, and its length, are as at entry. -/
theorem qr_solve_output_layout {α : Type} [One α] (L : Lapack α) (m n bn : Nat)
    (r b tau x work : List α) (len : Int) (hmn : n ≤ m) (hx : n * bn ≤ x.length) :
    (m * bn ≤ (solvedClone L m n bn r tau b work len).length →
      (∀ i j, i < n → j < bn →
        (s_qr_solve_factored L m n bn r b tau x work len).x[j * n + i]?
          = (solvedClone L m n bn r tau b work len)[j * m + i]?) ∧
      (∀ k, n * bn ≤ k → (s_qr_solve_factored L m n bn r b tau x work len).x[k]? = x[k]?) ∧
      (s_qr_solve_factored L m n bn r b tau x work len).x.length = x.length) ∧
    ((L.geqrf m n (r.take (m * n)) m work len).info = 0 →
      m * bn ≤ (solvedClone L m n bn (L.geqrf m n (r.take (m * n)) m work len).a
        (L.geqrf m n (r.take (m * n)) m work len).tau b
        (L.geqrf m n (r.take (m * n)) m work len).work len).length →
      (∀ i j, i < n → j < bn →
        (s_qr_solve L m n bn r b x work len).x[j * n + i]?
          = (solvedClone L m n bn (L.geqrf m n (r.take (m * n)) m work len).a
              (L.geqrf m n (r.take (m * n)) m work len).tau b
              (L.geqrf m n (r.take (m * n)) m work len).work len)[j * m + i]?) ∧
      (∀ k, n * bn ≤ k → (s_qr_solve L m n bn r b x work len).x[k]? = x[k]?) ∧
      (s_qr_solve L m n bn r b x work len).x.length = x.length) := by
  have key : ∀ cb : List α, m * bn ≤ cb.length →
      (∀ i j, i < n → j < bn → (copySolution m n bn cb x)[j * n + i]? = cb[j * m + i]?) ∧
      (∀ k, n * bn ≤ k → (copySolution m n bn cb x)[k]? = x[k]?) ∧
      (copySolution m n bn cb x).length = x.length := by
    intro cb hcb
    refine ⟨?_, ?_, paints_length _ _ _ (copySolution_paints m n bn cb) x⟩
    · intro i j hi hj
      have hdst : j * n + i < n * bn := offset_lt hi hj
      have hsrc : j * m + i < m * bn := offset_lt (by omega) hj
      rw [((copySolution_paints m n bn cb) x (j * n + i)).1 ⟨i, j, hi, hj, rfl⟩]
      dsimp only
      rw [(div_mod_offset hi).1, (div_mod_offset hi).2,
        List.getElem?_eq_getElem (show j * m + i < cb.length by omega)]
      exact overwrite_some_of_lt x _ _ (by omega)
    · intro k hk
      apply ((copySolution_paints m n bn cb) x k).2
      rintro ⟨i, j, hi, hj, hkk⟩
      have : j * n + i < n * bn := offset_lt hi hj
      omega
  constructor
  · intro hcb
    exact key _ hcb
  · intro h0 hcb
    have hx' : (s_qr_solve L m n bn r b x work len).x
        = copySolution m n bn
            (solvedClone L m n bn (L.geqrf m n (r.take (m * n)) m work len).a
              (L.geqrf m n (r.take (m * n)) m work len).tau b
              (L.geqrf m n (r.take (m * n)) m work len).work len) x := by
      unfold s_qr_solve solvedClone
      simp [h0]
    rw [hx']
    exact key _ hcb

theorem qr_solve_output_layout_witness :
    2 ≤ 3 ∧ 2 * 2 ≤ ([0, 0, 0, 0, 9] : List Int).length ∧
    3 * 2 ≤ (solvedClone idLapack 3 2 2 [1, 0, 0, 0, 1, 0] [0, 0] [1, 2, 3, 4, 5, 6] [0, 0] 2).length ∧
    (idLapack.geqrf 3 2 (([1, 0, 0, 0, 1, 0] : List Int).take (3 * 2)) 3 [0, 0] 2).info = 0 ∧
    3 * 2 ≤ (solvedClone idLapack 3 2 2 (idLapack.geqrf 3 2 (([1, 0, 0, 0, 1, 0] : List Int).take (3 * 2)) 3 [0, 0] 2).a
        (idLapack.geqrf 3 2 (([1, 0, 0, 0, 1, 0] : List Int).take (3 * 2)) 3 [0, 0] 2).tau [1, 2, 3, 4, 5, 6]
        (idLapack.geqrf 3 2 (([1, 0, 0, 0, 1, 0] : List Int).take (3 * 2)) 3 [0, 0] 2).work 2).length ∧
    ((3 * 2 ≤ (solvedClone idLapack 3 2 2 [1, 0, 0, 0, 1, 0] [0, 0] [1, 2, 3, 4, 5, 6] [0, 0] 2).length →
      (∀ i j, i < 2 → j < 2 →
        (s_qr_solve_factored idLapack 3 2 2 [1, 0, 0, 0, 1, 0] [1, 2, 3, 4, 5, 6] [0, 0] [0, 0, 0, 0, 9] [0, 0] 2).x[j * 2 + i]?
          = (solvedClone idLapack 3 2 2 [1, 0, 0, 0, 1, 0] [0, 0] [1, 2, 3, 4, 5, 6] [0, 0] 2)[j * 3 + i]?) ∧
      (∀ k, 2 * 2 ≤ k →
        (s_qr_solve_factored idLapack 3 2 2 [1, 0, 0, 0, 1, 0] [1, 2, 3, 4, 5, 6] [0, 0] [0, 0, 0, 0, 9] [0, 0] 2).x[k]? = ([0, 0, 0, 0, 9] : List Int)[k]?) ∧
      (s_qr_solve_factored idLapack 3 2 2 [1, 0, 0, 0, 1, 0] [1, 2, 3, 4, 5, 6] [0, 0] [0, 0, 0, 0, 9] [0, 0] 2).x.length = ([0, 0, 0, 0, 9] : List Int).length) ∧
    ((idLapack.geqrf 3 2 (([1, 0, 0, 0, 1, 0] : List Int).take (3 * 2)) 3 [0, 0] 2).info = 0 →
      3 * 2 ≤ (solvedClone idLapack 3 2 2 (idLapack.geqrf 3 2 (([1, 0, 0, 0, 1, 0] : List Int).take (3 * 2)) 3 [0, 0] 2).a
        (idLapack.geqrf 3 2 (([1, 0, 0, 0, 1, 0] : List Int).take (3 * 2)) 3 [0, 0] 2).tau [1, 2, 3, 4, 5, 6]
        (idLapack.geqrf 3 2 (([1, 0, 0, 0, 1, 0] : List Int).take (3 * 2)) 3 [0, 0] 2).work 2).length →
      (∀ i j, i < 2 → j < 2 →
        (s_qr_solve idLapack 3 2 2 [1, 0, 0, 0, 1, 0] [1, 2, 3, 4, 5, 6] [0, 0, 0, 0, 9] [0, 0] 2).x[j * 2 + i]?
          = (solvedClone idLapack 3 2 2 (idLapack.geqrf 3 2 (([1, 0, 0, 0, 1, 0] : List Int).take (3 * 2)) 3 [0, 0] 2).a
        (idLapack.geqrf 3 2 (([1, 0, 0, 0, 1, 0] : List Int).take (3 * 2)) 3 [0, 0] 2).tau [1, 2, 3, 4, 5, 6]
        (idLapack.geqrf 3 2 (([1, 0, 0, 0, 1, 0] : List Int).take (3 * 2)) 3 [0, 0] 2).work 2)[j * 3 + i]?) ∧
      (∀ k, 2 * 2 ≤ k →
        (s_qr_solve idLapack 3 2 2 [1, 0, 0, 0, 1, 0] [1, 2, 3, 4, 5, 6] [0, 0, 0, 0, 9] [0, 0] 2).x[k]? = ([0, 0, 0, 0, 9] : List Int)[k]?) ∧
      (s_qr_solve idLapack 3 2 2 [1, 0, 0, 0, 1, 0] [1, 2, 3, 4, 5, 6] [0, 0, 0, 0, 9] [0, 0] 2).x.length = ([0, 0, 0, 0, 9] : List Int).length)) :=
  ⟨by decide, by decide, by decide, by decide, by decide,
    qr_solve_output_layout idLapack 3 2 2 [1, 0, 0, 0, 1, 0] [1, 2, 3, 4, 5, 6] [0, 0] [0, 0, 0, 0, 9] [0, 0] 2
      (by decide) (by decide)⟩

/-! ## QR factor: the reflector copy and the explicit Q construction -/

/-- C8: for every `m` and `n`, with `r` holding the `m`-by-`n` matrix after the factorization
and `q` holding `m * min m n` elements: `qr_factor` calls the explicit Q construction once,
with dimension arguments `m`, `k`, `k` for `k = min m n`, on the buffer produced by the copy
step; the copy step sets `q[j*m + i] = r[j*m + i]` (`r` as left by the factorization) for
every pair with `j < min m n` and `j < i < m`, leaves every other element of `q` as it was,
and every offset it reads or writes is below `m * min m n`, which is at most `m * n`. -/
theorem qr_factor_reflector_copy {α : Type} (L : Lapack α) (m n : Nat) (r q work : List α)
    (len : Int) (hr : m * n ≤ (L.geqrf m n r m work len).a.length)
    (hq : m * min m n ≤ q.length) :
    (s_qr_factor L m n r q work len).events
      = [Event.call Routine.geqrf [m, n],
          Event.call Routine.orgqr [m, min m n, min m n]] ∧
    (s_qr_factor L m n r q work len).q
      = (L.orgqr m (min m n) (min m n) (copyReflectors m n (L.geqrf m n r m work len).a q) m
          (L.geqrf m n r m work len).tau (L.geqrf m n r m work len).work len).a ∧
    (∀ i j, j < min m n → j < i → i < m →
      (copyReflectors m n (L.geqrf m n r m work len).a q)[j * m + i]?
        = (L.geqrf m n r m work len).a[j * m + i]?) ∧
    (∀ k, (¬ ∃ i j, j < min m n ∧ j < i ∧ i < m ∧ k = j * m + i) →
      (copyReflectors m n (L.geqrf m n r m work len).a q)[k]? = q[k]?) ∧
    (∀ k, k ∈ reflectorOffsets m n ↔ ∃ i j, j < min m n ∧ j < i ∧ i < m ∧ k = j * m + i) ∧
    (∀ k ∈ reflectorOffsets m n, k < m * min m n) ∧
    m * min m n ≤ m * n := by
  have hbound : ∀ i j, j < min m n → i < m → j * m + i < m * min m n :=
    fun i j hj hi => offset_lt hi hj
  have hle : m * min m n ≤ m * n := Nat.mul_le_mul_left m (Nat.min_le_right m n)
  refine ⟨?_, ?_, ?_, ?_, mem_reflectorOffsets m n, ?_, hle⟩
  · unfold s_qr_factor
    by_cases h : m ≤ n
    · simp [h, Nat.min_eq_left h]
    · simp [h, Nat.min_eq_right (Nat.le_of_not_le h)]
  · unfold s_qr_factor
    by_cases h : m ≤ n
    · simp [h, Nat.min_eq_left h]
    · simp [h, Nat.min_eq_right (Nat.le_of_not_le h)]
  · intro i j hj hij hi
    have hb := hbound i j hj hi
    rw [((copyReflectors_paints m n (L.geqrf m n r m work len).a) q (j * m + i)).1
      ((mem_reflectorOffsets m n _).mpr ⟨i, j, hj, hij, hi, rfl⟩)]
    dsimp only
    rw [List.getElem?_eq_getElem
      (show j * m + i < (L.geqrf m n r m work len).a.length by omega)]
    exact overwrite_some_of_lt q _ _ (by omega)
  · intro k hk
    exact ((copyReflectors_paints m n (L.geqrf m n r m work len).a) q k).2
      (fun hmem => hk ((mem_reflectorOffsets m n k).mp hmem))
  · intro k hk
    obtain ⟨i, j, hj, _, hi, rfl⟩ := (mem_reflectorOffsets m n k).mp hk
    exact hbound i j hj hi

theorem qr_factor_reflector_copy_witness :
    3 * 2 ≤ (idLapack.geqrf 3 2 [1, 7, 8, 2, 3, 9] 3 [0, 0] 2).a.length ∧
    3 * min 3 2 ≤ ([0, 0, 0, 0, 0, 0] : List Int).length ∧
    ((s_qr_factor idLapack 3 2 [1, 7, 8, 2, 3, 9] [0, 0, 0, 0, 0, 0] [0, 0] 2).events
      = [Event.call Routine.geqrf [3, 2],
          Event.call Routine.orgqr [3, min 3 2, min 3 2]] ∧
    (s_qr_factor idLapack 3 2 [1, 7, 8, 2, 3, 9] [0, 0, 0, 0, 0, 0] [0, 0] 2).q
      = (idLapack.orgqr 3 (min 3 2) (min 3 2)
          (copyReflectors 3 2 (idLapack.geqrf 3 2 [1, 7, 8, 2, 3, 9] 3 [0, 0] 2).a [0, 0, 0, 0, 0, 0]) 3
          (idLapack.geqrf 3 2 [1, 7, 8, 2, 3, 9] 3 [0, 0] 2).tau
          (idLapack.geqrf 3 2 [1, 7, 8, 2, 3, 9] 3 [0, 0] 2).work 2).a ∧
    (∀ i j, j < min 3 2 → j < i → i < 3 →
      (copyReflectors 3 2 (idLapack.geqrf 3 2 [1, 7, 8, 2, 3, 9] 3 [0, 0] 2).a [0, 0, 0, 0, 0, 0])[j * 3 + i]?
        = (idLapack.geqrf 3 2 [1, 7, 8, 2, 3, 9] 3 [0, 0] 2).a[j * 3 + i]?) ∧
    (∀ k, (¬ ∃ i j, j < min 3 2 ∧ j < i ∧ i < 3 ∧ k = j * 3 + i) →
      (copyReflectors 3 2 (idLapack.geqrf 3 2 [1, 7, 8, 2, 3, 9] 3 [0, 0] 2).a [0, 0, 0, 0, 0, 0])[k]?
        = ([0, 0, 0, 0, 0, 0] : List Int)[k]?) ∧
    (∀ k, k ∈ reflectorOffsets 3 2 ↔ ∃ i j, j < min 3 2 ∧ j < i ∧ i < 3 ∧ k = j * 3 + i) ∧
    (∀ k ∈ reflectorOffsets 3 2, k < 3 * min 3 2) ∧
    3 * min 3 2 ≤ 3 * 2) :=
  ⟨by decide, by decide,
    qr_factor_reflector_copy idLapack 3 2 [1, 7, 8, 2, 3, 9] [0, 0, 0, 0, 0, 0] [0, 0] 2
      (by decide) (by decide)⟩

/-! ## QR factor: the status returned -/

/-- C9 (the code at the failing input): for a 1-by-2 matrix and a workspace of length 1 the
factorization step `geqrf` reports the invalid-argument status `-7`, the explicit Q
construction `orgqr(1, 1, 1, ...)` that follows accepts the same workspace and reports `0`,
and `qr_factor` returns `0`: the status of the factorization step is overwritten, it is not
returned. -/
theorem qr_factor_returns_orgqr_status :
    (idLapack.geqrf 1 2 [3, 4] 1 [0] 1).info = -7 ∧
    (s_qr_factor idLapack 1 2 [3, 4] [0] [0] 1).info = 0 ∧
    (s_qr_factor idLapack 1 2 [3, 4] [0] [0] 1).events
      = [Event.call Routine.geqrf [1, 2], Event.call Routine.orgqr [1, 1, 1]] := by
  decide

/-! ## Factor wrappers on a positive status -/

/-- C10 (counterexample): on a 1-by-1 zero matrix the library's `getrf` reports status 1 and
leaves the pivot `1`, and `lu_factor` returns the pivot `0`; on a 2-by-2 matrix with a
negative leading entry the library's `potrf` reports status 1 and leaves the buffer as it
was, and `cholesky_factor` returns it with the element above the diagonal zeroed.  So the
pivot vector and the matrix buffer are not as the library left them. -/
theorem factor_postprocessing_on_positive_status :
    ¬ ((0 < (idLapack.getrf 1 1 [0] 1).info →
          (s_lu_factor idLapack 1 [0]).ipiv = (idLapack.getrf 1 1 [0] 1).ipiv) ∧
       (0 < (idLapack.potrf 'L' 2 [-1, 5, 5, 1] 2).info →
          (s_cholesky_factor idLapack 2 [-1, 5, 5, 1]).a
            = (idLapack.potrf 'L' 2 [-1, 5, 5, 1] 2).a)) := by
  decide

/-- C10 (amended): whenever the library factorization reports a positive status, `lu_factor`
and `cholesky_factor` return that status, and the post-processing has run all the same:
`lu_factor` has subtracted one (as a C `int`) from each of the first `n` pivots the library
left, the matrix buffer being the library's; `cholesky_factor` has set every element strictly
above the diagonal of the `n`-by-`n` buffer the library left to zero, the elements on and
below the diagonal being the library's. -/
theorem factor_positive_status_postprocessed {α : Type} [Zero α] (L : Lapack α) (n : Nat)
    (a : List α) :
    (0 < (L.getrf n n a n).info →
      (s_lu_factor L n a).info = (L.getrf n n a n).info ∧
      (s_lu_factor L n a).a = (L.getrf n n a n).a ∧
      ∀ i : Nat, (s_lu_factor L n a).ipiv[i]?
        = if i < n then ((L.getrf n n a n).ipiv[i]?).map (fun p => wrap32 (p - 1))
          else (L.getrf n n a n).ipiv[i]?) ∧
    (0 < (L.potrf 'L' n a n).info → n * n ≤ (L.potrf 'L' n a n).a.length →
      (s_cholesky_factor L n a).info = (L.potrf 'L' n a n).info ∧
      (∀ r c, r < c → c < n → (s_cholesky_factor L n a).a[c * n + r]? = some 0) ∧
      (∀ r c, c ≤ r → r < n →
        (s_cholesky_factor L n a).a[c * n + r]? = (L.potrf 'L' n a n).a[c * n + r]?)) := by
  constructor
  · intro _
    exact ⟨rfl, rfl, fun i => pivotsToZeroBased_getElem? n _ i⟩
  · intro _ hlen
    refine ⟨rfl, ?_, ?_⟩
    · intro r c hrc hc
      have hlt : c * n + r < n * n := offset_lt (by omega) hc
      show (zeroUpper 0 n (L.potrf 'L' n a n).a)[c * n + r]? = some 0
      rw [((zeroUpper_paints (0 : α) n) _ (c * n + r)).1 ⟨c, r, hrc, hc, rfl⟩]
      exact overwrite_some_of_lt _ _ _ (by omega)
    · intro r c hcr hr
      show (zeroUpper 0 n (L.potrf 'L' n a n).a)[c * n + r]? = _
      apply ((zeroUpper_paints (0 : α) n) _ (c * n + r)).2
      rintro ⟨c', r', hrc', hc', hk⟩
      have := offset_unique hr (show r' < n by omega) hk
      omega

theorem factor_positive_status_postprocessed_witness :
    0 < (idLapack.getrf 1 1 [0] 1).info ∧
    0 < (idLapack.potrf 'L' 2 [-1, 5, 5, 1] 2).info ∧
    2 * 2 ≤ (idLapack.potrf 'L' 2 [-1, 5, 5, 1] 2).a.length ∧
    ((s_lu_factor idLapack 1 [0]).info = (idLapack.getrf 1 1 [0] 1).info ∧
      (s_lu_factor idLapack 1 [0]).a = (idLapack.getrf 1 1 [0] 1).a ∧
      ∀ i : Nat, (s_lu_factor idLapack 1 [0]).ipiv[i]?
        = if i < 1 then ((idLapack.getrf 1 1 [0] 1).ipiv[i]?).map (fun p => wrap32 (p - 1))
          else (idLapack.getrf 1 1 [0] 1).ipiv[i]?) ∧
    ((s_cholesky_factor idLapack 2 [-1, 5, 5, 1]).info
        = (idLapack.potrf 'L' 2 [-1, 5, 5, 1] 2).info ∧
      (∀ r c, r < c → c < 2 →
        (s_cholesky_factor idLapack 2 [-1, 5, 5, 1]).a[c * 2 + r]? = some 0) ∧
      (∀ r c, c ≤ r → r < 2 →
        (s_cholesky_factor idLapack 2 [-1, 5, 5, 1]).a[c * 2 + r]?
          = (idLapack.potrf 'L' 2 [-1, 5, 5, 1] 2).a[c * 2 + r]?)) :=
  ⟨by decide, by decide, by decide,
    (factor_positive_status_postprocessed idLapack 1 [0]).1 (by decide),
    (factor_positive_status_postprocessed idLapack 2 [-1, 5, 5, 1]).2 (by decide) (by decide)⟩

/-! ## Scratch buffers: acquired and released -/

theorem scratch_live_after_calls {α β : Type} [One α] [Zero β] (L : Lapack α)
    (gesvd : (jobu jobvt : Char) → (m n : Nat) → (a : List (β × β)) → (lda : Nat) →
      (u : List (β × β)) → (ldu : Nat) → (vt : List (β × β)) → (ldvt : Nat) →
      (work : List (β × β)) → (lwork : Int) → GesvdOut β)
    (m n nrhs bn : Nat) (a b r tau x work : List α) (len : Int) (cv : Bool)
    (ca cs cu cvt cwork : List (β × β)) :
    liveAfter [] (s_lu_inverse L n a work len).events = [] ∧
    liveAfter [] (s_lu_solve L n nrhs a b).events = [] ∧
    liveAfter [] (s_qr_solve L m n bn r b x work len).events = [] ∧
    liveAfter [] (s_qr_solve_factored L m n bn r b tau x work len).events = [] ∧
    liveAfter [] (c_svd_factor gesvd cv m n ca cs cu cvt cwork len).events = [] ∧
    liveAfter [] (s_cholesky_solve L n nrhs a b).events
      = if (L.potrf 'L' n (a.take (n * n)) n).info ≠ 0 then [] else [Scratch.clone] := by
  refine ⟨?_, ?_, ?_, ?_, ?_, ?_⟩
  · unfold s_lu_inverse
    by_cases h : (L.getrf n n a n).info = 0 <;> simp [h, liveAfter]
  · unfold s_lu_solve
    by_cases h : (L.getrf n n (a.take (n * n)) n).info = 0 <;> simp [h, liveAfter]
  · unfold s_qr_solve
    by_cases h : (L.geqrf m n (r.take (m * n)) m work len).info = 0 <;>
      simp [h, liveAfter]
  · simp [s_qr_solve_factored, liveAfter]
  · simp [c_svd_factor, liveAfter]
  · unfold s_cholesky_solve
    by_cases h : (L.potrf 'L' n (a.take (n * n)) n).info = 0 <;> simp [h, liveAfter]

/-- C11 (the code at the failing input): for a 2-by-2 positive-definite matrix the library's
`potrf` and `potrs` report 0, `cholesky_solve` returns 0, and its events are the acquisition
of `clone` and the two library calls: `clone` is still live when the call returns.  On the
failure path of the same wrapper, and on both paths of `lu_solve`, nothing is live. -/
theorem cholesky_solve_success_leaves_clone :
    (idLapack.potrf 'L' 2 (([4, 2, 2, 3] : List Int).take (2 * 2)) 2).info = 0 ∧
    (s_cholesky_solve idLapack 2 1 [4, 2, 2, 3] [7, 9]).info = 0 ∧
    (s_cholesky_solve idLapack 2 1 [4, 2, 2, 3] [7, 9]).events
      = [Event.acquire Scratch.clone 4, Event.call Routine.potrf [2],
          Event.call Routine.potrs [2, 1]] ∧
    liveAfter [] (s_cholesky_solve idLapack 2 1 [4, 2, 2, 3] [7, 9]).events
      = [Scratch.clone] ∧
    liveAfter [] (s_cholesky_solve idLapack 2 1 [-1, 5, 5, 1] [7, 9]).events = [] ∧
    liveAfter [] (s_lu_solve idLapack 2 1 [4, 2, 2, 3] [7, 9]).events = [] ∧
    liveAfter [] (s_lu_solve idLapack 2 1 [0, 0, 0, 1] [7, 9]).events = [] ∧
    liveAfter [] (c_svd_factor quietGesvd true 2 2 [(1, 0), (0, 0), (0, 0), (1, 0)]
      [(0, 0), (0, 0)] [] [] [] 0).events = [] := by
  decide

/-! ## QR solve: the offsets the copy loop reads -/

theorem foldl_traced {ι σ : Type} (f : ι → σ → σ) (g : ι → List Nat) (l : List ι) (x : σ)
    (log : List Nat) :
    l.foldl (fun st i => (f i st.1, st.2 ++ g i)) (x, log)
      = (l.foldl (fun x i => f i x) x, log ++ l.flatMap g) := by
  induction l generalizing x log with
  | nil => simp
  | cons i l ih =>
    rw [List.foldl_cons, ih, List.foldl_cons, List.flatMap_cons, List.append_assoc]

theorem copySolutionTraced_eq {α : Type} (m n bn : Nat) (cb x : List α) :
    copySolutionTraced m n bn cb x
      = (copySolution m n bn cb x,
          (List.range n).flatMap (fun i => (List.range bn).flatMap (fun j => [j * m + i]))) := by
  unfold copySolutionTraced copySolution
  have hstep : (fun (st : List α × List Nat) (i : Nat) =>
        (List.range bn).foldl
          (fun st j => (copyAt st.1 (j * n + i) cb (j * m + i), st.2 ++ [j * m + i])) st)
      = (fun st i =>
          ((List.range bn).foldl (fun x j => copyAt x (j * n + i) cb (j * m + i)) st.1,
            st.2 ++ (List.range bn).flatMap (fun j => [j * m + i]))) := by
    funext st i
    exact foldl_traced (fun j x => copyAt x (j * n + i) cb (j * m + i))
      (fun j => [j * m + i]) (List.range bn) st.1 st.2
  rw [hstep, foldl_traced (fun i x =>
      (List.range bn).foldl (fun x j => copyAt x (j * n + i) cb (j * m + i)) x)
    (fun i => (List.range bn).flatMap (fun j => [j * m + i])) (List.range n) x []]
  simp

theorem mem_copySolutionTraced_reads {α : Type} (m n bn : Nat) (cb x : List α) (k : Nat) :
    k ∈ (copySolutionTraced m n bn cb x).2 ↔ ∃ i j, i < n ∧ j < bn ∧ k = j * m + i := by
  rw [copySolutionTraced_eq]
  simp only [List.mem_flatMap, List.mem_range, List.mem_singleton]
  constructor
  · rintro ⟨i, hi, j, hj, hk⟩
    exact ⟨i, j, hi, hj, hk⟩
  · rintro ⟨i, j, hi, hj, hk⟩
    exact ⟨i, hi, j, hj, hk⟩

theorem last_read_offset_ge {m n bn : Nat} (hbn : 1 ≤ bn) (hmn : m < n) :
    m * bn ≤ (bn - 1) * m + (n - 1) := by
  have h1 : (bn - 1 + 1) * m = (bn - 1) * m + m := by rw [Nat.add_mul, Nat.one_mul]
  rw [Nat.sub_add_cancel hbn, Nat.mul_comm bn m] at h1
  omega

/-- C12: in `qr_solve` (after a successful factorization) and `qr_solve_factored` the output
is produced by the copy loops, and for every `m`, every `n ≥ 1` and every `bn ≥ 1`: the
offsets of the clone the loops read are exactly the `j*m + i` with `i < n` and `j < bn`; all
of them lie inside the `m*bn` elements of the clone if and only if `n ≤ m`; and when `n > m`
the loops read the offset `(bn-1)*m + (n-1)`, which is at least `m*bn`, past the end of the
clone. -/
theorem qr_solve_copy_reads_inside_iff {α : Type} [One α] (L : Lapack α) (m n bn : Nat)
    (r b tau x work : List α) (len : Int) (hn : 1 ≤ n) (hbn : 1 ≤ bn) :
    (s_qr_solve_factored L m n bn r b tau x work len).x
      = (copySolutionTraced m n bn (solvedClone L m n bn r tau b work len) x).1 ∧
    ((L.geqrf m n (r.take (m * n)) m work len).info = 0 →
      (s_qr_solve L m n bn r b x work len).x
        = (copySolutionTraced m n bn
            (solvedClone L m n bn (L.geqrf m n (r.take (m * n)) m work len).a
              (L.geqrf m n (r.take (m * n)) m work len).tau b
              (L.geqrf m n (r.take (m * n)) m work len).work len) x).1) ∧
    (∀ (cb : List α) (k : Nat),
      k ∈ (copySolutionTraced m n bn cb x).2 ↔ ∃ i j, i < n ∧ j < bn ∧ k = j * m + i) ∧
    (∀ cb : List α, (∀ k ∈ (copySolutionTraced m n bn cb x).2, k < m * bn) ↔ n ≤ m) ∧
    (m < n → ∀ cb : List α,
      (bn - 1) * m + (n - 1) ∈ (copySolutionTraced m n bn cb x).2 ∧
      m * bn ≤ (bn - 1) * m + (n - 1)) := by
  have hlast : ∀ cb : List α, (bn - 1) * m + (n - 1) ∈ (copySolutionTraced m n bn cb x).2 :=
    fun cb => (mem_copySolutionTraced_reads m n bn cb x _).mpr
      ⟨n - 1, bn - 1, by omega, by omega, rfl⟩
  refine ⟨?_, ?_, fun cb k => mem_copySolutionTraced_reads m n bn cb x k, ?_, ?_⟩
  · rw [copySolutionTraced_eq]
    rfl
  · intro h0
    rw [copySolutionTraced_eq]
    unfold s_qr_solve solvedClone
    simp [h0]
  · intro cb
    constructor
    · intro hall
      by_contra hnm
      have hge := last_read_offset_ge hbn (show m < n by omega)
      have hlt := hall _ (hlast cb)
      omega
    · intro hnm k hk
      obtain ⟨i, j, hi, hj, rfl⟩ := (mem_copySolutionTraced_reads m n bn cb x k).mp hk
      exact offset_lt (show i < m by omega) hj
  · intro hmn cb
    exact ⟨hlast cb, last_read_offset_ge hbn hmn⟩

theorem qr_solve_copy_reads_inside_iff_witness :
    1 ≤ 3 ∧ 1 ≤ 2 ∧
    (idLapack.geqrf 2 3 (([1, 0, 0, 1, 5, 6] : List Int).take (2 * 3)) 2 [0, 0, 0] 3).info = 0 ∧
    2 < 3 ∧
    ((s_qr_solve_factored idLapack 2 3 2 [1, 0, 0, 1, 5, 6] [1, 2, 3, 4] [0, 0] [0, 0, 0, 0, 0, 0] [0, 0, 0] 3).x
      = (copySolutionTraced 2 3 2 (solvedClone idLapack 2 3 2 [1, 0, 0, 1, 5, 6] [0, 0] [1, 2, 3, 4] [0, 0, 0] 3) [0, 0, 0, 0, 0, 0]).1 ∧
    ((idLapack.geqrf 2 3 (([1, 0, 0, 1, 5, 6] : List Int).take (2 * 3)) 2 [0, 0, 0] 3).info = 0 →
      (s_qr_solve idLapack 2 3 2 [1, 0, 0, 1, 5, 6] [1, 2, 3, 4] [0, 0, 0, 0, 0, 0] [0, 0, 0] 3).x
        = (copySolutionTraced 2 3 2
            (solvedClone idLapack 2 3 2 (idLapack.geqrf 2 3 (([1, 0, 0, 1, 5, 6] : List Int).take (2 * 3)) 2 [0, 0, 0] 3).a
              (idLapack.geqrf 2 3 (([1, 0, 0, 1, 5, 6] : List Int).take (2 * 3)) 2 [0, 0, 0] 3).tau [1, 2, 3, 4]
              (idLapack.geqrf 2 3 (([1, 0, 0, 1, 5, 6] : List Int).take (2 * 3)) 2 [0, 0, 0] 3).work 3) [0, 0, 0, 0, 0, 0]).1) ∧
    (∀ (cb : List Int) (k : Nat),
      k ∈ (copySolutionTraced 2 3 2 cb [0, 0, 0, 0, 0, 0]).2 ↔ ∃ i j, i < 3 ∧ j < 2 ∧ k = j * 2 + i) ∧
    (∀ cb : List Int,
      (∀ k ∈ (copySolutionTraced 2 3 2 cb [0, 0, 0, 0, 0, 0]).2, k < 2 * 2) ↔ 3 ≤ 2) ∧
    (2 < 3 → ∀ cb : List Int,
      (2 - 1) * 2 + (3 - 1) ∈ (copySolutionTraced 2 3 2 cb [0, 0, 0, 0, 0, 0]).2 ∧
      2 * 2 ≤ (2 - 1) * 2 + (3 - 1))) :=
  ⟨by decide, by decide, by decide, by decide,
    qr_solve_copy_reads_inside_iff idLapack 2 3 2 [1, 0, 0, 1, 5, 6] [1, 2, 3, 4] [0, 0] [0, 0, 0, 0, 0, 0] [0, 0, 0] 3
      (by decide) (by decide)⟩

end MklLapack
